import Mathlib

/- Verification of the Mython tokenizer (include/lexer.h, src/lexer.cpp):
a shallow embedding of the character-level readers and of the
indentation/line/comment/EOF state machine driven by Lexer::ReadNextToken.
The input stream is modelled as a list of characters; the stream cursor is
the position in that list, so every reader returns the value it produced
together with the remaining input. -/

namespace Mython

/-- The token variants of parse::token_type, collected in the closed sum
parse::Token.  Value-bearing variants carry their value; the remaining
variants are bare markers.  NoneTok, TrueTok and FalseTok stand for the
C++ variants None, True and False. -/
inductive Tok where
  | Number (value : Int)
  | Id (value : String)
  | Char (value : Char)
  | Str (value : String)
  | Class
  | Return
  | If
  | Else
  | Def
  | Newline
  | Print
  | Indent
  | Dedent
  | And
  | Or
  | Not
  | Eq
  | NotEq
  | LessOrEq
  | GreaterOrEq
  | NoneTok
  | TrueTok
  | FalseTok
  | Eof
deriving DecidableEq, Repr

/-- util::IsNum: the C-locale isdigit, i.e. an ASCII decimal digit. -/
def IsNum (ch : Char) : Bool :=
  ch.isDigit

/-- util::IsAlpha: the C-locale isalpha, i.e. an ASCII letter. -/
def IsAlpha (ch : Char) : Bool :=
  ch.isAlpha

/-- util::IsAlNum: digit or letter. -/
def IsAlNum (ch : Char) : Bool :=
  IsNum ch || IsAlpha ch

/-- util::IsAlNumLL: digit, letter or underscore (a name character). -/
def IsAlNumLL (ch : Char) : Bool :=
  IsAlNum ch || ch = '_'

/-- The static keyword table util::KeyWords, as a lookup function. -/
def KeyWords (s : String) : Option Tok :=
  if s = "class" then some .Class
  else if s = "return" then some .Return
  else if s = "if" then some .If
  else if s = "else" then some .Else
  else if s = "def" then some .Def
  else if s = "print" then some .Print
  else if s = "and" then some .And
  else if s = "or" then some .Or
  else if s = "not" then some .Not
  else if s = "None" then some .NoneTok
  else if s = "True" then some .TrueTok
  else if s = "False" then some .FalseTok
  else none

/-- The static two-character-operator table util::DualSymbols, as a lookup
on the two peeked characters. -/
def DualSymbols (c1 c2 : Char) : Option Tok :=
  if c1 = '=' ∧ c2 = '=' then some .Eq
  else if c1 = '!' ∧ c2 = '=' then some .NotEq
  else if c1 = '>' ∧ c2 = '=' then some .GreaterOrEq
  else if c1 = '<' ∧ c2 = '=' then some .LessOrEq
  else none

/-- The escape processing inside util::ReadString: a backslash followed by
this character contributes the returned character, or nothing when the
escape is not one of the four recognized ones. -/
def esc (c : Char) : Option Char :=
  if c = '"' then some '"'
  else if c = '\'' then some '\''
  else if c = 'n' then some '\n'
  else if c = 't' then some '\t'
  else none

/-- The character-consuming loop of util::ReadString, after the opening
quote has been read.  line is the text accumulated so far.  The loop stops
at the first unescaped occurrence of the opening character; reaching end of
input first is the error path (the C++ code throws std::runtime_error with
the partially accumulated text). -/
def readStringLoop (first : Char) (line : String) : List Char → Except String (String × List Char)
  | [] => .error ("Failed to parse string : " ++ line)
  | [c] =>
    if c = '\\' then .error ("Failed to parse string : " ++ line)
    else if c = first then .ok (line, [])
    else readStringLoop first (line.push c) []
  | c :: next :: rest =>
    if c = '\\' then
      match esc next with
      | some e => readStringLoop first (line.push e) rest
      | none => readStringLoop first line rest
    else if c = first then .ok (line, next :: rest)
    else readStringLoop first (line.push c) (next :: rest)

/-- util::ReadString: consumes the opening quote and then runs the loop. -/
def ReadString (input : List Char) : Except String (String × List Char) :=
  match input with
  | [] => .error "Failed to parse string : "
  | first :: rest => readStringLoop first "" rest

/-- The character-collecting loop shared by util::ReadName (with IsAlNumLL)
and util::ReadNumber (with IsNum): consume the maximal prefix of characters
satisfying p, putting the first non-matching character back. -/
def readWhile (p : Char → Bool) : List Char → List Char × List Char
  | [] => ([], [])
  | c :: rest =>
    if p c then
      let q := readWhile p rest
      (c :: q.1, q.2)
    else
      ([], c :: rest)

/-- util::ReadName: the maximal run of name characters, as a string. -/
def ReadName (input : List Char) : String × List Char :=
  let q := readWhile IsAlNumLL input
  (String.mk q.1, q.2)

/-- The numeric value std::stoi assigns to a run of decimal digits. -/
def digitsToNat (digits : List Char) : Nat :=
  digits.foldl (fun a c => a * 10 + (c.toNat - 48)) 0

/-- util::ReadNumber: the maximal run of digits, parsed as a non-negative
integer; 0 when no digits were available. -/
def ReadNumber (input : List Char) : Int × List Char :=
  let q := readWhile IsNum input
  if q.1 = [] then (0, q.2) else ((digitsToNat q.1 : Nat), q.2)

/-- util::CountSpaces: the length of the maximal run of spaces, the first
non-space character being put back. -/
def CountSpaces : List Char → Nat × List Char
  | [] => (0, [])
  | c :: rest =>
    if c = ' ' then
      let q := CountSpaces rest
      (q.1 + 1, q.2)
    else
      (0, c :: rest)

/-- util::ReadLine as used by Lexer::NextLine (the returned string is
discarded): getline consumes every character through the next newline, or
through end of input. -/
def ReadLine : List Char → List Char
  | [] => []
  | c :: rest => if c = '\n' then rest else ReadLine rest

/-- The discarding loop of Lexer::ParseComment: consume characters until a
newline is met, putting the newline itself back. -/
def SkipComment : List Char → List Char
  | [] => []
  | c :: rest => if c = '\n' then c :: rest else SkipComment rest

/-- The mutable state of parse::Lexer: the not-yet-consumed input, the
start_of_line_ flag, the two indent counters and the stored current token.
A default-constructed parse::Token value-initializes the first variant of
the underlying std::variant, which is token_type::Number with value 0. -/
structure LexerState where
  input : List Char
  start_of_line : Bool
  current_indent : Nat
  line_indent : Nat
  current_token : Tok
deriving DecidableEq, Repr

/-- Lexer::ParseChar: consume one character; if it and the peeked next
character form a dual symbol, consume the second as well and produce the
mapped token, otherwise produce Char of the first character only.  At end
of input the peek yields the eof marker, which matches no dual symbol. -/
def ParseChar (c : Char) (rest : List Char) : Tok × List Char :=
  match rest with
  | [] => (Tok.Char c, [])
  | c2 :: rest2 =>
    match DualSymbols c c2 with
    | some t => (t, rest2)
    | none => (Tok.Char c, c2 :: rest2)

/-- Lexer::ParseToken together with Lexer::ParseName: dispatch on the next
character to the integer reader, the name reader (with keyword lookup), the
string reader, or the character/dual-symbol reader.  Only called when a
character is available. -/
def ParseToken (input : List Char) : Except String (Tok × List Char) :=
  match input with
  | [] => .error "Failed to parse string : "
  | ch :: rest =>
    if IsNum ch then
      let q := ReadNumber input
      .ok (Tok.Number q.1, q.2)
    else if IsAlNumLL ch then
      let q := ReadName input
      match KeyWords q.1 with
      | some t => .ok (t, q.2)
      | none => .ok (Tok.Id q.1, q.2)
    else if ch = '"' ∨ ch = '\'' then
      match ReadString input with
      | .ok (s, r) => .ok (Tok.Str s, r)
      | .error e => .error e
    else
      .ok (ParseChar ch rest)

/-- Lexer::ReadNextToken, fuel-indexed so that the internal recursion
through blank lines, comments and space runs is structural.  Each recursive
call consumes at least one input character, so any fuel exceeding the input
length makes the fuel case unreachable.  The decision order is that of the
C++ code: end of input, newline, comment, spaces, pending indent change,
significant token. -/
def stepN : Nat → LexerState → Except String LexerState
  | 0, _ => .error "out of fuel"
  | fuel + 1, s =>
    match s.input with
    | [] =>
      if s.start_of_line = true then
        if 0 < s.current_indent then
          .ok ⟨s.input, s.start_of_line, s.current_indent - 1, s.line_indent, Tok.Dedent⟩
        else
          .ok ⟨s.input, s.start_of_line, s.current_indent, s.line_indent, Tok.Eof⟩
      else
        .ok ⟨ReadLine s.input, true, s.current_indent, 0, Tok.Newline⟩
    | ch :: _ =>
      if ch = '\n' then
        if s.start_of_line = true then
          stepN fuel ⟨ReadLine s.input, true, s.current_indent, 0, s.current_token⟩
        else
          .ok ⟨ReadLine s.input, true, s.current_indent, 0, Tok.Newline⟩
      else if ch = '#' then
        stepN fuel ⟨SkipComment s.input, s.start_of_line, s.current_indent, s.line_indent, s.current_token⟩
      else if ch = ' ' then
        stepN fuel ⟨(CountSpaces s.input).2, s.start_of_line, s.current_indent,
          if s.start_of_line = true then (CountSpaces s.input).1 / 2 else s.line_indent,
          s.current_token⟩
      else if s.start_of_line = true ∧ s.current_indent ≠ s.line_indent then
        if s.current_indent < s.line_indent then
          .ok ⟨s.input, s.start_of_line, s.current_indent + 1, s.line_indent, Tok.Indent⟩
        else
          .ok ⟨s.input, s.start_of_line, s.current_indent - 1, s.line_indent, Tok.Dedent⟩
      else
        match ParseToken s.input with
        | .ok (t, r) => .ok ⟨r, false, s.current_indent, s.line_indent, t⟩
        | .error e => .error e

/-- One call of Lexer::ReadNextToken: stepN with fuel certainly sufficient
for the internal recursion. -/
def step (s : LexerState) : Except String LexerState :=
  stepN (s.input.length + 1) s

/-- The state of a parse::Lexer before its constructor body runs: fresh
input, start_of_line_ true, both indent counters 0, and the
default-constructed current token Number 0. -/
def initState (input : List Char) : LexerState :=
  ⟨input, true, 0, 0, Tok.Number 0⟩

/-- Lexer::Lexer: the constructor immediately performs one ReadNextToken. -/
def mkLexer (input : List Char) : Except String LexerState :=
  step (initState input)

/-- Lexer::CurrentToken: return the stored token, touching nothing. -/
def CurrentToken (s : LexerState) : Tok :=
  s.current_token

/-- Lexer::NextToken: one ReadNextToken, then return the stored token. -/
def NextToken (s : LexerState) : Except String (Tok × LexerState) :=
  (step s).map fun s2 => (s2.current_token, s2)

/-- The token sequence produced by up to fuel calls of ReadNextToken from
state s, ending at (and including) the first Eof token. -/
def tokensFrom : Nat → LexerState → Except String (List Tok)
  | 0, _ => .ok []
  | fuel + 1, s =>
    match step s with
    | .error e => .error e
    | .ok s2 =>
      if s2.current_token = Tok.Eof then .ok [Tok.Eof]
      else
        match tokensFrom fuel s2 with
        | .error e => .error e
        | .ok l => .ok (s2.current_token :: l)

/-- All tokens a freshly constructed Lexer produces for the given input
(the constructor's token first), up to the first Eof. -/
def ScanTokens (fuel : Nat) (input : List Char) : Except String (List Tok) :=
  tokensFrom fuel (initState input)

/-- Whether the loop of util::ReadString, started after an opening quote
first, will meet an unescaped occurrence of first before end of input. -/
def hasCloser (first : Char) : List Char → Bool
  | [] => false
  | [c] =>
    if c = '\\' then false
    else if c = first then true
    else false
  | c :: next :: rest =>
    if c = '\\' then hasCloser first rest
    else if c = first then true
    else hasCloser first (next :: rest)

/- ------------------------------------------------------------------ -/
/- Helper lemmas about the readers                                     -/
/- ------------------------------------------------------------------ -/

lemma SkipComment_length_le (l : List Char) : (SkipComment l).length ≤ l.length := by
  induction l with
  | nil => simp [SkipComment]
  | cons c rest ih =>
    simp only [SkipComment]
    split
    · simp
    · exact le_trans ih (Nat.le_succ _)

lemma CountSpaces_length_le (l : List Char) : (CountSpaces l).2.length ≤ l.length := by
  induction l with
  | nil => simp [CountSpaces]
  | cons c rest ih =>
    simp only [CountSpaces]
    split
    · exact le_trans ih (Nat.le_succ _)
    · simp

lemma SkipComment_cons_ne (c : Char) (rest : List Char) (h : c ≠ '\n') :
    SkipComment (c :: rest) = SkipComment rest := by
  simp [SkipComment, h]

lemma ReadLine_newline (r : List Char) : ReadLine ('\n' :: r) = r := by
  simp [ReadLine]

lemma CountSpaces_cons_space (r : List Char) :
    CountSpaces (' ' :: r) = ((CountSpaces r).1 + 1, (CountSpaces r).2) := by
  simp [CountSpaces]

/- ------------------------------------------------------------------ -/
/- Fuel congruence: any fuel above the input length gives the same     -/
/- result for stepN, so step is well-defined.                          -/
/- ------------------------------------------------------------------ -/

lemma stepN_congr : ∀ f1 : Nat, ∀ s : LexerState, ∀ f2 : Nat,
    s.input.length < f1 → s.input.length < f2 → stepN f1 s = stepN f2 s := by
  intro f1
  induction f1 with
  | zero => intro s f2 h1 _; omega
  | succ f1 ih =>
    intro s f2 h1 h2
    match f2, h2 with
    | f2 + 1, h2 =>
      simp only [stepN]
      rcases hs : s.input with _ | ⟨ch, r⟩
      · rfl
      · have hlen : r.length + 1 ≤ f1 := by
          have := h1; rw [hs] at this; simpa using Nat.lt_succ_iff.mp this
        have hlen2 : r.length + 1 ≤ f2 := by
          have := h2; rw [hs] at this; simpa using Nat.lt_succ_iff.mp this
        by_cases hnl : ch = '\n'
        · subst hnl
          by_cases hsol : s.start_of_line = true
          · simp only [if_pos rfl, if_pos hsol]
            apply ih
            · simp [hs, ReadLine_newline]; omega
            · simp [hs, ReadLine_newline]; omega
          · simp [if_pos rfl, hsol]
        · by_cases hcm : ch = '#'
          · subst hcm
            simp only [if_neg hnl, if_pos rfl]
            apply ih
            · have := SkipComment_length_le r
              simp [hs, SkipComment_cons_ne _ _ hnl]; omega
            · have := SkipComment_length_le r
              simp [hs, SkipComment_cons_ne _ _ hnl]; omega
          · by_cases hsp : ch = ' '
            · subst hsp
              simp only [if_neg hnl, if_neg hcm, if_pos rfl]
              apply ih
              · have := CountSpaces_length_le r
                simp [hs, CountSpaces_cons_space]; omega
              · have := CountSpaces_length_le r
                simp [hs, CountSpaces_cons_space]; omega
            · simp [if_neg hnl, if_neg hcm, if_neg hsp]

lemma step_eq_stepN (s : LexerState) (f : Nat) (h : s.input.length < f) :
    step s = stepN f s := by
  unfold step
  exact stepN_congr _ s f (Nat.lt_succ_self _) h

/- ------------------------------------------------------------------ -/
/- One-step unfolding equations for step, mirroring the branches of    -/
/- Lexer::ReadNextToken.                                               -/
/- ------------------------------------------------------------------ -/

lemma step_nil_mid (ci li : Nat) (t : Tok) :
    step ⟨[], false, ci, li, t⟩ = .ok ⟨[], true, ci, 0, Tok.Newline⟩ := by
  simp [step, stepN, ReadLine]

lemma step_nil_dedent (ci li : Nat) (t : Tok) (h : 0 < ci) :
    step ⟨[], true, ci, li, t⟩ = .ok ⟨[], true, ci - 1, li, Tok.Dedent⟩ := by
  simp [step, stepN, h]

lemma step_nil_eof (li : Nat) (t : Tok) :
    step ⟨[], true, 0, li, t⟩ = .ok ⟨[], true, 0, li, Tok.Eof⟩ := by
  simp [step, stepN]

lemma stepN_newline_blank (fuel : Nat) (r : List Char) (ci li : Nat) (t : Tok) :
    stepN (fuel + 1) ⟨'\n' :: r, true, ci, li, t⟩ =
      stepN fuel ⟨ReadLine ('\n' :: r), true, ci, 0, t⟩ := rfl

lemma stepN_comment (fuel : Nat) (r : List Char) (b : Bool) (ci li : Nat) (t : Tok) :
    stepN (fuel + 1) ⟨'#' :: r, b, ci, li, t⟩ =
      stepN fuel ⟨SkipComment ('#' :: r), b, ci, li, t⟩ := rfl

lemma stepN_space (fuel : Nat) (r : List Char) (b : Bool) (ci li : Nat) (t : Tok) :
    stepN (fuel + 1) ⟨' ' :: r, b, ci, li, t⟩ =
      stepN fuel ⟨(CountSpaces (' ' :: r)).2, b, ci,
        if b = true then (CountSpaces (' ' :: r)).1 / 2 else li, t⟩ := rfl

lemma step_newline_blank (r : List Char) (ci li : Nat) (t : Tok) :
    step ⟨'\n' :: r, true, ci, li, t⟩ = step ⟨r, true, ci, 0, t⟩ := by
  calc step ⟨'\n' :: r, true, ci, li, t⟩
      = stepN (r.length + 1) ⟨ReadLine ('\n' :: r), true, ci, 0, t⟩ :=
        stepN_newline_blank (r.length + 1) r ci li t
    _ = step ⟨r, true, ci, 0, t⟩ := by rw [ReadLine_newline]; rfl

lemma step_newline_mid (r : List Char) (ci li : Nat) (t : Tok) :
    step ⟨'\n' :: r, false, ci, li, t⟩ = .ok ⟨r, true, ci, 0, Tok.Newline⟩ := by
  simp [step, stepN, ReadLine_newline]

lemma step_comment (r : List Char) (b : Bool) (ci li : Nat) (t : Tok) :
    step ⟨'#' :: r, b, ci, li, t⟩ = step ⟨SkipComment r, b, ci, li, t⟩ := by
  have h0 : SkipComment ('#' :: r) = SkipComment r :=
    SkipComment_cons_ne _ _ (by decide)
  calc step ⟨'#' :: r, b, ci, li, t⟩
      = stepN (r.length + 1) ⟨SkipComment ('#' :: r), b, ci, li, t⟩ :=
        stepN_comment (r.length + 1) r b ci li t
    _ = step ⟨SkipComment r, b, ci, li, t⟩ := by
        rw [h0]
        exact stepN_congr _ _ _
          (Nat.lt_succ_of_le (SkipComment_length_le r))
          (Nat.lt_succ_self _)

lemma step_space (r : List Char) (b : Bool) (ci li : Nat) (t : Tok) :
    step ⟨' ' :: r, b, ci, li, t⟩ =
      step ⟨(CountSpaces (' ' :: r)).2, b, ci,
        if b = true then (CountSpaces (' ' :: r)).1 / 2 else li, t⟩ := by
  have hle : (CountSpaces (' ' :: r)).2.length ≤ r.length := by
    rw [CountSpaces_cons_space]; exact CountSpaces_length_le r
  calc step ⟨' ' :: r, b, ci, li, t⟩
      = stepN (r.length + 1) ⟨(CountSpaces (' ' :: r)).2, b, ci,
          if b = true then (CountSpaces (' ' :: r)).1 / 2 else li, t⟩ :=
        stepN_space (r.length + 1) r b ci li t
    _ = step ⟨(CountSpaces (' ' :: r)).2, b, ci,
          if b = true then (CountSpaces (' ' :: r)).1 / 2 else li, t⟩ :=
        stepN_congr _ _ _ (Nat.lt_succ_of_le hle) (Nat.lt_succ_self _)

lemma step_indent (c : Char) (r : List Char) (h1 : c ≠ '\n') (h2 : c ≠ '#') (h3 : c ≠ ' ')
    (ci li : Nat) (t : Tok) (h4 : ci < li) :
    step ⟨c :: r, true, ci, li, t⟩ = .ok ⟨c :: r, true, ci + 1, li, Tok.Indent⟩ := by
  have hne : ci ≠ li := Nat.ne_of_lt h4
  simp [step, stepN, h1, h2, h3, hne, h4]

lemma step_dedent (c : Char) (r : List Char) (h1 : c ≠ '\n') (h2 : c ≠ '#') (h3 : c ≠ ' ')
    (ci li : Nat) (t : Tok) (h4 : li < ci) :
    step ⟨c :: r, true, ci, li, t⟩ = .ok ⟨c :: r, true, ci - 1, li, Tok.Dedent⟩ := by
  have hne : ci ≠ li := Nat.ne_of_gt h4
  have h5 : ¬ ci < li := Nat.not_lt_of_gt h4
  simp [step, stepN, h1, h2, h3, hne, h5]

lemma step_token (c : Char) (r : List Char) (h1 : c ≠ '\n') (h2 : c ≠ '#') (h3 : c ≠ ' ')
    (b : Bool) (ci li : Nat) (t : Tok) (h4 : ¬ (b = true ∧ ci ≠ li)) :
    step ⟨c :: r, b, ci, li, t⟩ =
      match ParseToken (c :: r) with
      | .ok (tk, rest) => .ok ⟨rest, false, ci, li, tk⟩
      | .error e => .error e := by
  simp [step, stepN, h1, h2, h3, h4]

/- ------------------------------------------------------------------ -/
/- Which tokens the significant-token dispatch can produce             -/
/- ------------------------------------------------------------------ -/

lemma ParseChar_nil (c : Char) : ParseChar c [] = (Tok.Char c, []) := rfl

lemma ParseChar_cons (c c2 : Char) (rest2 : List Char) :
    ParseChar c (c2 :: rest2) =
      match DualSymbols c c2 with
      | some t => (t, rest2)
      | none => (Tok.Char c, c2 :: rest2) := rfl

lemma ParseToken_cons (ch : Char) (rest : List Char) :
    ParseToken (ch :: rest) =
      if IsNum ch then
        .ok (Tok.Number (ReadNumber (ch :: rest)).1, (ReadNumber (ch :: rest)).2)
      else if IsAlNumLL ch then
        match KeyWords (ReadName (ch :: rest)).1 with
        | some t => .ok (t, (ReadName (ch :: rest)).2)
        | none => .ok (Tok.Id (ReadName (ch :: rest)).1, (ReadName (ch :: rest)).2)
      else if ch = '"' ∨ ch = '\'' then
        match ReadString (ch :: rest) with
        | .ok (s, r) => .ok (Tok.Str s, r)
        | .error e => .error e
      else
        .ok (ParseChar ch rest) := rfl

lemma KeyWords_shape (s : String) (tk : Tok) (h : KeyWords s = some tk) :
    tk ≠ Tok.Indent ∧ tk ≠ Tok.Dedent ∧ tk ≠ Tok.Eof ∧ tk ≠ Tok.Newline := by
  unfold KeyWords at h
  by_cases c0 : s = "class"
  · rw [if_pos c0] at h
    injection h with h
    subst h
    exact ⟨(fun hx => nomatch hx), (fun hx => nomatch hx), (fun hx => nomatch hx), (fun hx => nomatch hx)⟩
  · rw [if_neg c0] at h
    by_cases c1 : s = "return"
    · rw [if_pos c1] at h
      injection h with h
      subst h
      exact ⟨(fun hx => nomatch hx), (fun hx => nomatch hx), (fun hx => nomatch hx), (fun hx => nomatch hx)⟩
    · rw [if_neg c1] at h
      by_cases c2 : s = "if"
      · rw [if_pos c2] at h
        injection h with h
        subst h
        exact ⟨(fun hx => nomatch hx), (fun hx => nomatch hx), (fun hx => nomatch hx), (fun hx => nomatch hx)⟩
      · rw [if_neg c2] at h
        by_cases c3 : s = "else"
        · rw [if_pos c3] at h
          injection h with h
          subst h
          exact ⟨(fun hx => nomatch hx), (fun hx => nomatch hx), (fun hx => nomatch hx), (fun hx => nomatch hx)⟩
        · rw [if_neg c3] at h
          by_cases c4 : s = "def"
          · rw [if_pos c4] at h
            injection h with h
            subst h
            exact ⟨(fun hx => nomatch hx), (fun hx => nomatch hx), (fun hx => nomatch hx), (fun hx => nomatch hx)⟩
          · rw [if_neg c4] at h
            by_cases c5 : s = "print"
            · rw [if_pos c5] at h
              injection h with h
              subst h
              exact ⟨(fun hx => nomatch hx), (fun hx => nomatch hx), (fun hx => nomatch hx), (fun hx => nomatch hx)⟩
            · rw [if_neg c5] at h
              by_cases c6 : s = "and"
              · rw [if_pos c6] at h
                injection h with h
                subst h
                exact ⟨(fun hx => nomatch hx), (fun hx => nomatch hx), (fun hx => nomatch hx), (fun hx => nomatch hx)⟩
              · rw [if_neg c6] at h
                by_cases c7 : s = "or"
                · rw [if_pos c7] at h
                  injection h with h
                  subst h
                  exact ⟨(fun hx => nomatch hx), (fun hx => nomatch hx), (fun hx => nomatch hx), (fun hx => nomatch hx)⟩
                · rw [if_neg c7] at h
                  by_cases c8 : s = "not"
                  · rw [if_pos c8] at h
                    injection h with h
                    subst h
                    exact ⟨(fun hx => nomatch hx), (fun hx => nomatch hx), (fun hx => nomatch hx), (fun hx => nomatch hx)⟩
                  · rw [if_neg c8] at h
                    by_cases c9 : s = "None"
                    · rw [if_pos c9] at h
                      injection h with h
                      subst h
                      exact ⟨(fun hx => nomatch hx), (fun hx => nomatch hx), (fun hx => nomatch hx), (fun hx => nomatch hx)⟩
                    · rw [if_neg c9] at h
                      by_cases c10 : s = "True"
                      · rw [if_pos c10] at h
                        injection h with h
                        subst h
                        exact ⟨(fun hx => nomatch hx), (fun hx => nomatch hx), (fun hx => nomatch hx), (fun hx => nomatch hx)⟩
                      · rw [if_neg c10] at h
                        by_cases c11 : s = "False"
                        · rw [if_pos c11] at h
                          injection h with h
                          subst h
                          exact ⟨(fun hx => nomatch hx), (fun hx => nomatch hx), (fun hx => nomatch hx), (fun hx => nomatch hx)⟩
                        · rw [if_neg c11] at h
                          exact absurd h (by simp)

lemma DualSymbols_shape (c1 c2 : Char) (tk : Tok) (h : DualSymbols c1 c2 = some tk) :
    tk ≠ Tok.Indent ∧ tk ≠ Tok.Dedent ∧ tk ≠ Tok.Eof ∧ tk ≠ Tok.Newline := by
  unfold DualSymbols at h
  by_cases d0 : c1 = '=' ∧ c2 = '='
  · rw [if_pos d0] at h
    injection h with h
    subst h
    exact ⟨(fun hx => nomatch hx), (fun hx => nomatch hx), (fun hx => nomatch hx), (fun hx => nomatch hx)⟩
  · rw [if_neg d0] at h
    by_cases d1 : c1 = '!' ∧ c2 = '='
    · rw [if_pos d1] at h
      injection h with h
      subst h
      exact ⟨(fun hx => nomatch hx), (fun hx => nomatch hx), (fun hx => nomatch hx), (fun hx => nomatch hx)⟩
    · rw [if_neg d1] at h
      by_cases d2 : c1 = '>' ∧ c2 = '='
      · rw [if_pos d2] at h
        injection h with h
        subst h
        exact ⟨(fun hx => nomatch hx), (fun hx => nomatch hx), (fun hx => nomatch hx), (fun hx => nomatch hx)⟩
      · rw [if_neg d2] at h
        by_cases d3 : c1 = '<' ∧ c2 = '='
        · rw [if_pos d3] at h
          injection h with h
          subst h
          exact ⟨(fun hx => nomatch hx), (fun hx => nomatch hx), (fun hx => nomatch hx), (fun hx => nomatch hx)⟩
        · rw [if_neg d3] at h
          exact absurd h (by simp)

lemma ParseChar_shape (c : Char) (rest : List Char) (tk : Tok) (r : List Char)
    (h : ParseChar c rest = (tk, r)) :
    tk ≠ Tok.Indent ∧ tk ≠ Tok.Dedent ∧ tk ≠ Tok.Eof ∧ tk ≠ Tok.Newline := by
  rcases rest with _ | ⟨c2, rest2⟩
  · rw [ParseChar_nil] at h
    injection h with h1 h2
    subst h1
    exact ⟨(fun hx => nomatch hx), (fun hx => nomatch hx), (fun hx => nomatch hx), (fun hx => nomatch hx)⟩
  · rw [ParseChar_cons] at h
    rcases hd : DualSymbols c c2 with _ | t2 <;> rw [hd] at h
    · injection h with h1 h2
      subst h1
      exact ⟨(fun hx => nomatch hx), (fun hx => nomatch hx), (fun hx => nomatch hx), (fun hx => nomatch hx)⟩
    · injection h with h1 h2
      subst h1
      exact DualSymbols_shape c c2 t2 hd

lemma ParseToken_shape (input : List Char) (tk : Tok) (r : List Char)
    (h : ParseToken input = .ok (tk, r)) :
    tk ≠ Tok.Indent ∧ tk ≠ Tok.Dedent ∧ tk ≠ Tok.Eof ∧ tk ≠ Tok.Newline := by
  rcases input with _ | ⟨ch, rest⟩
  · exact absurd h (by simp [ParseToken])
  · rw [ParseToken_cons] at h
    split_ifs at h with h1 h2 h3
    · injection h with h
      injection h with ha hb
      subst ha
      exact ⟨(fun hx => nomatch hx), (fun hx => nomatch hx), (fun hx => nomatch hx), (fun hx => nomatch hx)⟩
    · rcases hk : KeyWords (ReadName (ch :: rest)).1 with _ | t2 <;> rw [hk] at h
      · injection h with h
        injection h with ha hb
        subst ha
        exact ⟨(fun hx => nomatch hx), (fun hx => nomatch hx), (fun hx => nomatch hx), (fun hx => nomatch hx)⟩
      · injection h with h
        injection h with ha hb
        subst ha
        exact KeyWords_shape _ t2 hk
    · rcases hrs : ReadString (ch :: rest) with e | ⟨sv, rv⟩ <;> rw [hrs] at h
      · exact absurd h (by simp)
      · injection h with h
        injection h with ha hb
        subst ha
        exact ⟨(fun hx => nomatch hx), (fun hx => nomatch hx), (fun hx => nomatch hx), (fun hx => nomatch hx)⟩
    · injection h with h
      exact ParseChar_shape ch rest tk r h

/- ------------------------------------------------------------------ -/
/- Unfolding stepN one level with abstract fuel                        -/
/- ------------------------------------------------------------------ -/

lemma stepN_nil (fuel : Nat) (b : Bool) (ci li : Nat) (t : Tok) :
    stepN (fuel + 1) ⟨[], b, ci, li, t⟩ =
      if b = true then
        if 0 < ci then .ok ⟨[], b, ci - 1, li, Tok.Dedent⟩
        else .ok ⟨[], b, ci, li, Tok.Eof⟩
      else .ok ⟨[], true, ci, 0, Tok.Newline⟩ := rfl

lemma stepN_cons (fuel : Nat) (ch : Char) (r : List Char) (b : Bool) (ci li : Nat) (t : Tok) :
    stepN (fuel + 1) ⟨ch :: r, b, ci, li, t⟩ =
      if ch = '\n' then
        if b = true then stepN fuel ⟨ReadLine (ch :: r), true, ci, 0, t⟩
        else .ok ⟨ReadLine (ch :: r), true, ci, 0, Tok.Newline⟩
      else if ch = '#' then
        stepN fuel ⟨SkipComment (ch :: r), b, ci, li, t⟩
      else if ch = ' ' then
        stepN fuel ⟨(CountSpaces (ch :: r)).2, b, ci,
          if b = true then (CountSpaces (ch :: r)).1 / 2 else li, t⟩
      else if b = true ∧ ci ≠ li then
        if ci < li then .ok ⟨ch :: r, b, ci + 1, li, Tok.Indent⟩
        else .ok ⟨ch :: r, b, ci - 1, li, Tok.Dedent⟩
      else
        match ParseToken (ch :: r) with
        | .ok (tk, rest) => .ok ⟨rest, false, ci, li, tk⟩
        | .error e => .error e := rfl

/- ------------------------------------------------------------------ -/
/- The master one-step invariant of ReadNextToken                      -/
/- ------------------------------------------------------------------ -/

lemma stepN_props : ∀ fuel : Nat, ∀ s s' : LexerState, stepN fuel s = .ok s' →
    (s'.current_token = Tok.Indent → s'.current_indent = s.current_indent + 1) ∧
    (s'.current_token = Tok.Dedent → s.current_indent = s'.current_indent + 1) ∧
    (s'.current_token ≠ Tok.Indent → s'.current_token ≠ Tok.Dedent →
      s'.current_indent = s.current_indent) ∧
    (s'.current_token = Tok.Eof →
      s.current_indent = 0 ∧ s'.current_indent = 0 ∧ s'.input = [] ∧
      s'.start_of_line = true) ∧
    (s'.current_token = Tok.Newline → s'.start_of_line = true ∧ s'.line_indent = 0) := by
  intro fuel
  induction fuel with
  | zero => intro s s' h; simp [stepN] at h
  | succ fuel ih =>
    intro s s' h
    obtain ⟨i, b, ci, li, t⟩ := s
    rcases i with _ | ⟨ch, r⟩
    · rw [stepN_nil] at h
      split_ifs at h with hb hci
      · injection h with h
        subst h
        exact ⟨(fun hx => nomatch hx), fun _ => by show ci = ci - 1 + 1; omega,
          fun _ hx => absurd rfl hx, (fun hx => nomatch hx),
          (fun hx => nomatch hx)⟩
      · injection h with h
        subst h
        exact ⟨(fun hx => nomatch hx), (fun hx => nomatch hx),
          fun _ _ => rfl, fun _ => ⟨by show ci = 0; omega, by show ci = 0; omega, rfl, hb⟩,
          (fun hx => nomatch hx)⟩
      · injection h with h
        subst h
        exact ⟨(fun hx => nomatch hx), (fun hx => nomatch hx),
          fun _ _ => rfl, (fun hx => nomatch hx), fun _ => ⟨rfl, rfl⟩⟩
    · rw [stepN_cons] at h
      by_cases h1 : ch = '\n'
      · rw [if_pos h1] at h
        by_cases hb : b = true
        · rw [if_pos hb] at h
          have hres := ih _ _ h
          exact hres
        · rw [if_neg hb] at h
          injection h with h
          subst h
          exact ⟨(fun hx => nomatch hx), (fun hx => nomatch hx),
            fun _ _ => rfl, (fun hx => nomatch hx), fun _ => ⟨rfl, rfl⟩⟩
      · rw [if_neg h1] at h
        by_cases h2 : ch = '#'
        · rw [if_pos h2] at h
          have hres := ih _ _ h
          exact hres
        · rw [if_neg h2] at h
          by_cases h3 : ch = ' '
          · rw [if_pos h3] at h
            have hres := ih _ _ h
            exact hres
          · rw [if_neg h3] at h
            by_cases h4 : b = true ∧ ci ≠ li
            · rw [if_pos h4] at h
              obtain ⟨hb4, hne4⟩ := h4
              by_cases h5 : ci < li
              · rw [if_pos h5] at h
                injection h with h
                subst h
                exact ⟨fun _ => rfl, (fun hx => nomatch hx),
                  fun hx _ => absurd rfl hx, (fun hx => nomatch hx),
                  (fun hx => nomatch hx)⟩
              · rw [if_neg h5] at h
                injection h with h
                subst h
                exact ⟨(fun hx => nomatch hx),
                  fun _ => by show ci = ci - 1 + 1; omega,
                  fun _ hx => absurd rfl hx, (fun hx => nomatch hx),
                  (fun hx => nomatch hx)⟩
            · rw [if_neg h4] at h
              rcases hp : ParseToken (ch :: r) with e | ⟨tk, rest⟩ <;> rw [hp] at h
              · exact absurd h (by simp)
              · injection h with h
                subst h
                have hs := ParseToken_shape _ _ _ hp
                exact ⟨fun hx => absurd hx hs.1, fun hx => absurd hx hs.2.1,
                  fun _ _ => rfl, fun hx => absurd hx hs.2.2.1,
                  fun hx => absurd hx hs.2.2.2⟩

lemma step_props (s s' : LexerState) (h : step s = .ok s') :
    (s'.current_token = Tok.Indent → s'.current_indent = s.current_indent + 1) ∧
    (s'.current_token = Tok.Dedent → s.current_indent = s'.current_indent + 1) ∧
    (s'.current_token ≠ Tok.Indent → s'.current_token ≠ Tok.Dedent →
      s'.current_indent = s.current_indent) ∧
    (s'.current_token = Tok.Eof →
      s.current_indent = 0 ∧ s'.current_indent = 0 ∧ s'.input = [] ∧
      s'.start_of_line = true) ∧
    (s'.current_token = Tok.Newline → s'.start_of_line = true ∧ s'.line_indent = 0) :=
  stepN_props _ s s' h

/- ------------------------------------------------------------------ -/
/- Indent/Dedent balance along a token trace                           -/
/- ------------------------------------------------------------------ -/

lemma tokensFrom_count : ∀ fuel : Nat, ∀ s : LexerState, ∀ l : List Tok,
    tokensFrom fuel s = .ok l → Tok.Eof ∈ l →
    List.count Tok.Dedent l = List.count Tok.Indent l + s.current_indent := by
  intro fuel
  induction fuel with
  | zero =>
    intro s l h he
    simp only [tokensFrom] at h
    injection h with h
    subst h
    simp at he
  | succ fuel ih =>
    intro s l h he
    simp only [tokensFrom] at h
    rcases hs : step s with e | s2 <;> rw [hs] at h
    · exact absurd h (by simp)
    · replace h :
          (if s2.current_token = Tok.Eof then (Except.ok [Tok.Eof] : Except String (List Tok))
           else
             match tokensFrom fuel s2 with
             | .error e => .error e
             | .ok l2 => .ok (s2.current_token :: l2)) = Except.ok l := h
      by_cases ht : s2.current_token = Tok.Eof
      · rw [if_pos ht] at h
        injection h with h
        subst h
        obtain ⟨hci, _, _, _⟩ := (step_props s s2 hs).2.2.2.1 ht
        simp [List.count_cons]
        omega
      · rw [if_neg ht] at h
        rcases hr : tokensFrom fuel s2 with e2 | l2 <;> rw [hr] at h
        · exact absurd h (by simp)
        · injection h with h
          subst h
          have he2 : Tok.Eof ∈ l2 := by
            rcases List.mem_cons.mp he with h0 | h0
            · exact absurd h0.symm ht
            · exact h0
          have hih := ih s2 l2 hr he2
          have hp := step_props s s2 hs
          by_cases hI : s2.current_token = Tok.Indent
          · have hci := hp.1 hI
            rw [hI]
            simp only [List.count_cons]
            simp
            omega
          · by_cases hD : s2.current_token = Tok.Dedent
            · have hci := hp.2.1 hD
              rw [hD]
              simp only [List.count_cons]
              simp
              omega
            · have hci := hp.2.2.1 hI hD
              simp only [List.count_cons]
              simp [hI, hD]
              omega

/- ------------------------------------------------------------------ -/
/- Claims C1 - C3                                                      -/
/- ------------------------------------------------------------------ -/

/-- Claim C1: every produced Indent token increments current_indent by
exactly 1 and every produced Dedent token decrements it by exactly 1, no
other call changes it, Eof is first produced only when current_indent has
returned to 0, and consequently the number of Indent tokens produced
before (and including the trace up to) the first Eof equals the number of
Dedent tokens produced. -/
theorem mython_c1 :
    (∀ s s' : LexerState, step s = .ok s' →
      (s'.current_token = Tok.Indent → s'.current_indent = s.current_indent + 1) ∧
      (s'.current_token = Tok.Dedent → s.current_indent = s'.current_indent + 1) ∧
      (s'.current_token ≠ Tok.Indent → s'.current_token ≠ Tok.Dedent →
        s'.current_indent = s.current_indent) ∧
      (s'.current_token = Tok.Eof → s.current_indent = 0)) ∧
    (∀ fuel : Nat, ∀ input : List Char, ∀ l : List Tok,
      ScanTokens fuel input = .ok l → Tok.Eof ∈ l →
      List.count Tok.Indent l = List.count Tok.Dedent l) := by
  constructor
  · intro s s' h
    have hp := step_props s s' h
    exact ⟨hp.1, hp.2.1, hp.2.2.1, fun hx => (hp.2.2.2.1 hx).1⟩
  · intro fuel input l h he
    have hc := tokensFrom_count fuel (initState input) l h he
    simp only [initState] at hc
    omega

/-- Witness for C1: the input consisting of the line if: followed by a
two-space-indented line x produces one Indent and one Dedent. -/
theorem mython_c1_witness :
    List.count Tok.Indent [Tok.If, Tok.Char ':', Tok.Newline, Tok.Indent, Tok.Id "x",
      Tok.Newline, Tok.Dedent, Tok.Eof] =
    List.count Tok.Dedent [Tok.If, Tok.Char ':', Tok.Newline, Tok.Indent, Tok.Id "x",
      Tok.Newline, Tok.Dedent, Tok.Eof] :=
  mython_c1.2 10 (String.toList "if:\n  x\n")
    [Tok.If, Tok.Char ':', Tok.Newline, Tok.Indent, Tok.Id "x",
      Tok.Newline, Tok.Dedent, Tok.Eof] (by rfl) (by decide)

/-- Claim C2: scanning the input if x: newline two-spaces return x newline
from a freshly constructed scanner produces exactly the tokens If,
Identifier x, Char colon, Newline, Indent, Return, Identifier x, Newline,
Dedent, Eof, in that order. -/
theorem mython_c2 :
    ScanTokens 12 (String.toList "if x:\n  return x\n") =
      .ok [Tok.If, Tok.Id "x", Tok.Char ':', Tok.Newline, Tok.Indent, Tok.Return,
        Tok.Id "x", Tok.Newline, Tok.Dedent, Tok.Eof] := by rfl

/- ------------------------------------------------------------------ -/
/- The string reader fails exactly when no unescaped closer occurs      -/
/- ------------------------------------------------------------------ -/

lemma readStringLoop_no_closer : ∀ n : Nat, ∀ rest : List Char, rest.length ≤ n →
    ∀ first : Char, ∀ line : String, hasCloser first rest = false →
    ∃ msg : String, readStringLoop first line rest = .error msg := by
  intro n
  induction n with
  | zero =>
    intro rest hlen first line hc
    have hnil : rest = [] := List.eq_nil_of_length_eq_zero (Nat.le_zero.mp hlen)
    subst hnil
    exact ⟨_, rfl⟩
  | succ n ih =>
    intro rest hlen first line hc
    match rest, hlen with
    | [], _ => exact ⟨_, rfl⟩
    | [c], hlen =>
      simp only [hasCloser] at hc
      by_cases h1 : c = '\\'
      · subst h1
        exact ⟨_, rfl⟩
      · rw [if_neg h1] at hc
        by_cases h2 : c = first
        · rw [if_pos h2] at hc
          exact absurd hc (by simp)
        · have heq : readStringLoop first line [c] =
              readStringLoop first (line.push c) [] := by
            simp [readStringLoop, h1, h2]
          rw [heq]
          exact ⟨_, rfl⟩
    | c :: next :: rest2, hlen =>
      simp only [hasCloser] at hc
      by_cases h1 : c = '\\'
      · rw [if_pos h1] at hc
        subst h1
        have heq : readStringLoop first line ('\\' :: next :: rest2) =
            readStringLoop first
              (match esc next with
               | some e => line.push e
               | none => line) rest2 := by
          rcases hesc : esc next with _ | e <;> simp [readStringLoop, hesc]
        rw [heq]
        exact ih rest2 (by simp at hlen; omega) first _ hc
      · rw [if_neg h1] at hc
        by_cases h2 : c = first
        · rw [if_pos h2] at hc
          exact absurd hc (by simp)
        · rw [if_neg h2] at hc
          have heq : readStringLoop first line (c :: next :: rest2) =
              readStringLoop first (line.push c) (next :: rest2) := by
            simp [readStringLoop, h1, h2]
          rw [heq]
          exact ih (next :: rest2) (by simp at hlen ⊢; omega) first (line.push c) hc

/-- Claim C3 counterexample: the string reader does not stop at end of
line.  For the four-character input quote a newline quote the matching
closer lies on the following line and the claim as stated demands a
MalformedLiteral error with no token produced, yet the reader succeeds
with the value a-newline and the scanner produces a StringLiteral token. -/
theorem mython_c3_cex :
    ReadString (String.toList "\"a\n\"") = .ok ("a\n", []) ∧
    ScanTokens 3 (String.toList "\"a\n\"") =
      .ok [Tok.Str "a\n", Tok.Newline, Tok.Eof] :=
  ⟨rfl, rfl⟩

/-- Claim C3 (amended): for every invocation of the string reader on an
opening quote whose matching unescaped closing quote does not occur before
end of input, the reader fails with a MalformedLiteral error and no
StringLiteral token is produced; end of line does not terminate the scan.
In particular the input quote a b c followed by end of input yields the
error and the scanner produces no token. -/
theorem mython_c3 :
    (∀ first : Char, (first = '"' ∨ first = '\'') →
      ∀ rest : List Char, hasCloser first rest = false →
      ∃ msg : String, ReadString (first :: rest) = .error msg) ∧
    ReadString (String.toList "\"abc") = .error "Failed to parse string : abc" ∧
    ScanTokens 2 (String.toList "\"abc") = .error "Failed to parse string : abc" := by
  refine ⟨?_, rfl, rfl⟩
  intro first _ rest hc
  exact readStringLoop_no_closer rest.length rest le_rfl first "" hc

/-- Witness for C3: the unterminated double-quoted input abc errors. -/
theorem mython_c3_witness :
    ∃ msg : String, ReadString ('"' :: String.toList "abc") = .error msg :=
  mython_c3.1 '"' (Or.inl rfl) (String.toList "abc") (by rfl)

/- ------------------------------------------------------------------ -/
/- Blank separator lines                                               -/
/- ------------------------------------------------------------------ -/

lemma SkipComment_newline (r : List Char) : SkipComment ('\n' :: r) = '\n' :: r := by
  simp [SkipComment]

lemma SkipComment_append (bb : List Char) (hbb : ∀ c ∈ bb, c ≠ '\n') (l : List Char) :
    SkipComment (bb ++ l) = SkipComment l := by
  induction bb with
  | nil => simp
  | cons c rest ih =>
    rw [List.cons_append, SkipComment_cons_ne c _ (hbb c (by simp))]
    exact ih fun d hd => hbb d (by simp [hd])

lemma CountSpaces_replicate (m : Nat) (l : List Char)
    (hl : ∀ c, l.head? = some c → c ≠ ' ') :
    CountSpaces (List.replicate m ' ' ++ l) = (m, l) := by
  induction m with
  | zero =>
    rcases l with _ | ⟨c, r⟩
    · simp [CountSpaces]
    · have : c ≠ ' ' := hl c (by simp)
      simp [CountSpaces, this]
  | succ m ih =>
    rw [List.replicate_succ, List.cons_append]
    rw [show CountSpaces (' ' :: (List.replicate m ' ' ++ l)) =
      ((CountSpaces (List.replicate m ' ' ++ l)).1 + 1,
       (CountSpaces (List.replicate m ' ' ++ l)).2) from CountSpaces_cons_space _]
    rw [ih]

lemma sep_body_step (body : List Char)
    (hb : body = [] ∨ ∃ bb, body = '#' :: bb ∧ ∀ c ∈ bb, c ≠ '\n')
    (rest : List Char) (ci li : Nat) (t : Tok) :
    step ⟨body ++ '\n' :: rest, true, ci, li, t⟩ = step ⟨rest, true, ci, 0, t⟩ := by
  rcases hb with rfl | ⟨bb, rfl, hbb⟩
  · rw [List.nil_append]
    exact step_newline_blank rest ci li t
  · rw [List.cons_append, step_comment (bb ++ '\n' :: rest) true ci li t,
      SkipComment_append bb hbb ('\n' :: rest), SkipComment_newline]
    exact step_newline_blank rest ci li t

lemma sep_step (n : Nat) (body : List Char)
    (hb : body = [] ∨ ∃ bb, body = '#' :: bb ∧ ∀ c ∈ bb, c ≠ '\n')
    (rest : List Char) (ci li : Nat) (t : Tok) :
    step ⟨List.replicate n ' ' ++ body ++ '\n' :: rest, true, ci, li, t⟩ =
      step ⟨rest, true, ci, 0, t⟩ := by
  have hhead : ∀ c, (body ++ '\n' :: rest).head? = some c → c ≠ ' ' := by
    intro c hc
    rcases hb with rfl | ⟨bb, rfl, _⟩
    · simp at hc
      subst hc
      decide
    · simp at hc
      subst hc
      decide
  cases n with
  | zero =>
    rw [List.replicate_zero, List.nil_append]
    exact sep_body_step body hb rest ci li t
  | succ n =>
    rw [List.append_assoc, List.replicate_succ, List.cons_append, step_space]
    have hcs : CountSpaces (' ' :: (List.replicate n ' ' ++ (body ++ '\n' :: rest)))
        = (n + 1, body ++ '\n' :: rest) := by
      have h0 := CountSpaces_replicate (n + 1) (body ++ '\n' :: rest) hhead
      rw [List.replicate_succ, List.cons_append] at h0
      exact h0
    rw [hcs]
    simp only [if_pos rfl]
    exact sep_body_step body hb rest ci ((n + 1) / 2) t

/-- Claim C4: a separator line consisting of spaces and/or a comment,
inserted at a line boundary (the state reached right after any Newline
token: start_of_line true and line_indent 0), is consumed without
producing any token and without disturbing the indentation bookkeeping:
the very next ReadNextToken call behaves exactly as it would on the input
without the separator line, so the whole token sequence is unchanged. -/
theorem mython_c4 :
    (∀ s s2 : LexerState, step s = .ok s2 → s2.current_token = Tok.Newline →
      s2.start_of_line = true ∧ s2.line_indent = 0) ∧
    (∀ n : Nat, ∀ body : List Char,
      (body = [] ∨ ∃ bb, body = '#' :: bb ∧ ∀ c ∈ bb, c ≠ '\n') →
      ∀ rest : List Char, ∀ ci li : Nat, ∀ t : Tok,
      step ⟨List.replicate n ' ' ++ body ++ '\n' :: rest, true, ci, li, t⟩ =
        step ⟨rest, true, ci, 0, t⟩) := by
  constructor
  · intro s s2 h ht
    exact (step_props s s2 h).2.2.2.2 ht
  · intro n body hb rest ci li t
    exact sep_step n body hb rest ci li t

/-- Witness for C4: inserting the separator line of two spaces and the
comment hash-c between two code lines leaves the next step unchanged. -/
theorem mython_c4_witness :
    step ⟨List.replicate 2 ' ' ++ ['#', 'c'] ++ '\n' :: String.toList "x\n",
        true, 0, 0, Tok.Number 0⟩ =
      step ⟨String.toList "x\n", true, 0, 0, Tok.Number 0⟩ :=
  mython_c4.2 2 ['#', 'c'] (Or.inr ⟨['c'], rfl, by decide⟩)
    (String.toList "x\n") 0 0 (Tok.Number 0)

/- ------------------------------------------------------------------ -/
/- Claims C5 and C6                                                    -/
/- ------------------------------------------------------------------ -/

/-- Claim C5: when dispatch reaches the character/operator reader, a pair
matching the dual-symbol table consumes both characters and produces the
mapped token, any other pair consumes exactly one character and produces
Char of it; the table holds exactly the four pairs double-equal,
bang-equal, greater-equal, less-equal; and the input x space equal equal
space 2 newline scans to Identifier x, Eq, Number 2, Newline, Eof. -/
theorem mython_c5 :
    (∀ c c2 : Char, ∀ rest : List Char, ∀ t : Tok, DualSymbols c c2 = some t →
      ParseChar c (c2 :: rest) = (t, rest)) ∧
    (∀ c c2 : Char, ∀ rest : List Char, DualSymbols c c2 = none →
      ParseChar c (c2 :: rest) = (Tok.Char c, c2 :: rest)) ∧
    (∀ c c2 : Char, ∀ t : Tok, DualSymbols c c2 = some t →
      (c = '=' ∧ c2 = '=' ∧ t = Tok.Eq) ∨ (c = '!' ∧ c2 = '=' ∧ t = Tok.NotEq) ∨
      (c = '>' ∧ c2 = '=' ∧ t = Tok.GreaterOrEq) ∨
      (c = '<' ∧ c2 = '=' ∧ t = Tok.LessOrEq)) ∧
    ScanTokens 6 (String.toList "x == 2\n") =
      .ok [Tok.Id "x", Tok.Eq, Tok.Number 2, Tok.Newline, Tok.Eof] := by
  refine ⟨?_, ?_, ?_, rfl⟩
  · intro c c2 rest t h
    rw [ParseChar_cons, h]
  · intro c c2 rest h
    rw [ParseChar_cons, h]
  · intro c c2 t h
    unfold DualSymbols at h
    by_cases d0 : c = '=' ∧ c2 = '='
    · rw [if_pos d0] at h
      injection h with h
      exact Or.inl ⟨d0.1, d0.2, h.symm⟩
    · rw [if_neg d0] at h
      by_cases d1 : c = '!' ∧ c2 = '='
      · rw [if_pos d1] at h
        injection h with h
        exact Or.inr (Or.inl ⟨d1.1, d1.2, h.symm⟩)
      · rw [if_neg d1] at h
        by_cases d2 : c = '>' ∧ c2 = '='
        · rw [if_pos d2] at h
          injection h with h
          exact Or.inr (Or.inr (Or.inl ⟨d2.1, d2.2, h.symm⟩))
        · rw [if_neg d2] at h
          by_cases d3 : c = '<' ∧ c2 = '='
          · rw [if_pos d3] at h
            injection h with h
            exact Or.inr (Or.inr (Or.inr ⟨d3.1, d3.2, h.symm⟩))
          · rw [if_neg d3] at h
            exact absurd h (by simp)

/-- Witness for C5: the pair of equal signs is consumed as one Eq token. -/
theorem mython_c5_witness :
    ParseChar '=' ('=' :: String.toList " 2\n") = (Tok.Eq, String.toList " 2\n") :=
  mython_c5.1 '=' '=' (String.toList " 2\n") Tok.Eq (by rfl)

/-- Claim C6: inside a quoted string literal a backslash followed by a
double quote, a single quote, n or t contributes that quote, quote,
newline or tab respectively, and a backslash followed by any other
character contributes nothing; the six-character input quote a backslash
n b quote scans to the StringLiteral a-newline-b. -/
theorem mython_c6 :
    (∀ first : Char, ∀ line : String, ∀ c : Char, ∀ rest : List Char,
      readStringLoop first line ('\\' :: c :: rest) =
        readStringLoop first
          (match esc c with
           | some e => line.push e
           | none => line) rest) ∧
    (esc '"' = some '"' ∧ esc '\'' = some '\'' ∧ esc 'n' = some '\n' ∧
      esc 't' = some '\t') ∧
    (∀ c : Char, c ≠ '"' → c ≠ '\'' → c ≠ 'n' → c ≠ 't' → esc c = none) ∧
    ReadString (String.toList "\"a\\nb\"") = .ok ("a\nb", []) ∧
    ScanTokens 3 (String.toList "\"a\\nb\"") =
      .ok [Tok.Str "a\nb", Tok.Newline, Tok.Eof] := by
  refine ⟨?_, ⟨rfl, rfl, rfl, rfl⟩, ?_, rfl, rfl⟩
  · intro first line c rest
    rcases hesc : esc c with _ | e <;> simp [readStringLoop, hesc]
  · intro c h1 h2 h3 h4
    unfold esc
    rw [if_neg h1, if_neg h2, if_neg h3, if_neg h4]

/-- Witness for C6: an escaped x is dropped. -/
theorem mython_c6_witness : esc 'x' = none :=
  mython_c6.2.2.1 'x' (by decide) (by decide) (by decide) (by decide)

/- ------------------------------------------------------------------ -/
/- Claim C7: Eof is terminal                                           -/
/- ------------------------------------------------------------------ -/

lemma eof_state (s s' : LexerState) (h : step s = .ok s')
    (ht : s'.current_token = Tok.Eof) :
    s' = ⟨[], true, 0, s'.line_indent, Tok.Eof⟩ := by
  obtain ⟨_, h2, h3, h4⟩ := (step_props s s' h).2.2.2.1 ht
  obtain ⟨i, b, ci, li, t⟩ := s'
  simp only [LexerState.mk.injEq]
  exact ⟨h3, h4, h2, trivial, ht⟩

/-- Claim C7: once a call has produced the Eof token the state is terminal:
the next ReadNextToken call leaves the state unchanged, NextToken returns
Eof again with the same state, CurrentToken returns Eof, and every token
trace from that state is just Eof, forever. -/
theorem mython_c7 :
    ∀ s s' : LexerState, step s = .ok s' → s'.current_token = Tok.Eof →
      step s' = .ok s' ∧ NextToken s' = .ok (Tok.Eof, s') ∧
      CurrentToken s' = Tok.Eof ∧
      ∀ fuel : Nat, tokensFrom (fuel + 1) s' = .ok [Tok.Eof] := by
  intro s s' h ht
  have hs' := eof_state s s' h ht
  have hstep : step s' = .ok s' := by
    rw [hs']
    exact step_nil_eof _ _
  refine ⟨hstep, ?_, ht, ?_⟩
  · unfold NextToken
    rw [hstep]
    show Except.ok (s'.current_token, s') = .ok (Tok.Eof, s')
    rw [ht]
  · intro fuel
    simp only [tokensFrom]
    rw [hstep]
    simp [ht]

/-- Witness for C7: from the empty input the first call produces Eof and
the state is fixed from then on. -/
theorem mython_c7_witness :
    step ⟨[], true, 0, 0, Tok.Eof⟩ = .ok ⟨[], true, 0, 0, Tok.Eof⟩ :=
  (mython_c7 (initState []) ⟨[], true, 0, 0, Tok.Eof⟩ (by rfl) rfl).1

/- ------------------------------------------------------------------ -/
/- Claim C8: the constructor already scans the first token              -/
/- ------------------------------------------------------------------ -/

/-- Claim C8 counterexample: on the input x newline, the freshly
constructed scanner has already read the first token: CurrentToken
returns Identifier x, a token scanned from the input, and not the
default-constructed sentinel Number 0, before any NextToken call. -/
theorem mython_c8_cex :
    (mkLexer (String.toList "x\n")).map CurrentToken = .ok (Tok.Id "x") ∧
    Tok.Id "x" ≠ (initState (String.toList "x\n")).current_token :=
  ⟨rfl, by decide⟩

/-- Claim C8 (amended): the constructor immediately performs one read, so
before the first NextToken call CurrentToken already returns the first
token scanned from the input (the default sentinel Number 0 is never
observable); CurrentToken is a pure projection of the state, and every
NextToken call returns exactly the token it stored, which CurrentToken
then reports without consuming input or mutating state. -/
theorem mython_c8 :
    (∀ s : LexerState, CurrentToken s = s.current_token) ∧
    (∀ input : List Char, mkLexer input = step (initState input)) ∧
    (mkLexer (String.toList "x\n")).map CurrentToken = .ok (Tok.Id "x") ∧
    (∀ s s2 : LexerState, ∀ t : Tok, NextToken s = .ok (t, s2) →
      t = CurrentToken s2 ∧ step s = .ok s2) := by
  refine ⟨fun s => rfl, fun input => rfl, rfl, ?_⟩
  intro s s2 t h
  unfold NextToken at h
  rcases hs : step s with e | s3 <;> rw [hs] at h
  · exact absurd h (by simp [Except.map])
  · simp only [Except.map, Except.ok.injEq, Prod.mk.injEq] at h
    obtain ⟨h1, h2⟩ := h
    subst h2
    subst h1
    exact ⟨rfl, by first | exact hs | rfl⟩

/-- Witness for C8: advancing from the input consisting of the digit 1. -/
theorem mython_c8_witness :
    Tok.Number 1 = CurrentToken ⟨[], false, 0, 0, Tok.Number 1⟩ ∧
    step (initState ['1']) = .ok ⟨[], false, 0, 0, Tok.Number 1⟩ :=
  mython_c8.2.2.2 (initState ['1']) ⟨[], false, 0, 0, Tok.Number 1⟩
    (Tok.Number 1) (by rfl)

/- ------------------------------------------------------------------ -/
/- Claim C9: blank material scans to Eof alone                          -/
/- ------------------------------------------------------------------ -/

/-- Inputs consisting solely of blank material: newline characters, runs
of spaces, and comments running to a newline or to end of input, in any
combination, including the empty input. -/
inductive BlankInput : List Char → Prop where
  | nil : BlankInput []
  | space (r : List Char) : BlankInput r → BlankInput (' ' :: r)
  | newline (r : List Char) : BlankInput r → BlankInput ('\n' :: r)
  | commentEnd (bb : List Char) : (∀ c ∈ bb, c ≠ '\n') → BlankInput ('#' :: bb)
  | commentLine (bb r : List Char) : (∀ c ∈ bb, c ≠ '\n') → BlankInput r →
      BlankInput ('#' :: (bb ++ '\n' :: r))

lemma BlankInput_CountSpaces : ∀ l : List Char, BlankInput l →
    BlankInput (CountSpaces l).2 ∧ (CountSpaces l).2.length ≤ l.length := by
  intro l h
  induction h with
  | nil => exact ⟨BlankInput.nil, by simp [CountSpaces]⟩
  | space r hr ih =>
    rw [CountSpaces_cons_space]
    exact ⟨ih.1, le_trans ih.2 (Nat.le_succ _)⟩
  | newline r hr _ =>
    have hcs : CountSpaces ('\n' :: r) = (0, '\n' :: r) := by simp [CountSpaces]
    rw [hcs]
    exact ⟨BlankInput.newline r hr, le_rfl⟩
  | commentEnd bb hbb =>
    have hcs : CountSpaces ('#' :: bb) = (0, '#' :: bb) := by simp [CountSpaces]
    rw [hcs]
    exact ⟨BlankInput.commentEnd bb hbb, le_rfl⟩
  | commentLine bb r hbb hr _ =>
    have hcs : CountSpaces ('#' :: (bb ++ '\n' :: r)) = (0, '#' :: (bb ++ '\n' :: r)) := by
      simp [CountSpaces]
    rw [hcs]
    exact ⟨BlankInput.commentLine bb r hbb hr, le_rfl⟩

lemma blank_step : ∀ n : Nat, ∀ input : List Char, input.length ≤ n →
    BlankInput input → ∀ li : Nat, ∀ t : Tok, ∃ li2 : Nat,
      step ⟨input, true, 0, li, t⟩ = .ok ⟨[], true, 0, li2, Tok.Eof⟩ := by
  intro n
  induction n with
  | zero =>
    intro input hlen hb li t
    have hnil : input = [] := List.eq_nil_of_length_eq_zero (Nat.le_zero.mp hlen)
    subst hnil
    exact ⟨li, step_nil_eof li t⟩
  | succ n ih =>
    intro input hlen hb li t
    cases hb with
    | nil => exact ⟨li, step_nil_eof li t⟩
    | space r hr =>
      rw [step_space]
      simp only [if_pos rfl]
      have hcs := BlankInput_CountSpaces (' ' :: r) (BlankInput.space r hr)
      refine ih ((CountSpaces (' ' :: r)).2) ?_ hcs.1 _ t
      rw [CountSpaces_cons_space]
      exact le_trans (CountSpaces_length_le r) (by simp at hlen; omega)
    | newline r hr =>
      rw [step_newline_blank]
      exact ih r (by simp at hlen; omega) hr 0 t
    | commentEnd bb hbb =>
      rw [step_comment]
      have hsc : SkipComment bb = [] := by
        have := SkipComment_append bb hbb []
        rw [List.append_nil] at this
        exact this
      rw [hsc]
      exact ⟨li, step_nil_eof li t⟩
    | commentLine bb r hbb hr =>
      rw [step_comment, SkipComment_append bb hbb ('\n' :: r), SkipComment_newline,
        step_newline_blank]
      exact ih r (by simp at hlen; omega) hr 0 t

/-- Claim C9: for every input consisting solely of blank material -
newlines, lines of spaces, comment-only lines, in any combination,
including the empty input - the freshly constructed scanner produces Eof
as its first token, and the whole trace is just Eof for any amount of
fuel: no Newline, Indent or Dedent token is ever produced. -/
theorem mython_c9 :
    ∀ input : List Char, BlankInput input → ∀ fuel : Nat,
      tokensFrom (fuel + 1) (initState input) = .ok [Tok.Eof] := by
  intro input hb fuel
  obtain ⟨li2, hstep⟩ := blank_step input.length input le_rfl hb 0 (Tok.Number 0)
  have hinit : initState input = ⟨input, true, 0, 0, Tok.Number 0⟩ := rfl
  simp only [tokensFrom, hinit]
  rw [hstep]
  rfl

/-- Witness for C9: a line of one space, then a comment-only line, then a
line of two spaces without trailing newline, scans to Eof alone. -/
theorem mython_c9_witness :
    tokensFrom 5 (initState [' ', '\n', '#', 'x', '\n', ' ', ' ']) = .ok [Tok.Eof] :=
  mython_c9 [' ', '\n', '#', 'x', '\n', ' ', ' ']
    (BlankInput.space _ (BlankInput.newline _
      (BlankInput.commentLine ['x'] [' ', ' '] (by decide)
        (BlankInput.space _ (BlankInput.space _ BlankInput.nil))))) 4

/- ------------------------------------------------------------------ -/
/- Claim C10: single operator character at end of input                 -/
/- ------------------------------------------------------------------ -/

/-- Claim C10: when the character dispatched as operator/punctuation is
the last character of the input, the two-character lookahead neither fails
nor consumes beyond it: Char of that character is emitted, and the scanner
then produces Newline followed by Eof. -/
theorem mython_c10 :
    ∀ c : Char, IsNum c = false → IsAlNumLL c = false →
      c ≠ '"' → c ≠ '\'' → c ≠ '\n' → c ≠ '#' → c ≠ ' ' →
      ParseChar c [] = (Tok.Char c, []) ∧
      ScanTokens 3 [c] = .ok [Tok.Char c, Tok.Newline, Tok.Eof] := by
  intro c h1 h2 h3 h4 h5 h6 h7
  refine ⟨ParseChar_nil c, ?_⟩
  have hpt : ParseToken [c] = .ok (Tok.Char c, []) := by
    rw [ParseToken_cons]
    rw [if_neg (by simp [h1]), if_neg (by simp [h2]), if_neg (by simp [h3, h4]),
      ParseChar_nil]
  have hstep : step ⟨[c], true, 0, 0, Tok.Number 0⟩ =
      .ok ⟨[], false, 0, 0, Tok.Char c⟩ := by
    rw [step_token c [] h5 h6 h7 true 0 0 (Tok.Number 0) (by simp), hpt]
  have hstep2 : step ⟨[], false, 0, 0, Tok.Char c⟩ =
      .ok ⟨[], true, 0, 0, Tok.Newline⟩ := step_nil_mid 0 0 _
  have hstep3 : step ⟨[], true, 0, 0, Tok.Newline⟩ =
      .ok ⟨[], true, 0, 0, Tok.Eof⟩ := step_nil_eof 0 _
  have hinit : initState [c] = ⟨[c], true, 0, 0, Tok.Number 0⟩ := rfl
  unfold ScanTokens
  rw [hinit]
  simp [tokensFrom, hstep, hstep2, hstep3]

/-- Witness for C10: the whole input being a single equal sign. -/
theorem mython_c10_witness :
    ParseChar '=' [] = (Tok.Char '=', []) ∧
    ScanTokens 3 ['='] = .ok [Tok.Char '=', Tok.Newline, Tok.Eof] :=
  mython_c10 '=' (by decide) (by decide) (by decide) (by decide) (by decide)
    (by decide) (by decide)

end Mython
